import Mathlib

/-!
A shallow embedding of the deploy-orchestrator core of the `dockyard`
self-hosted PaaS daemon (Rust), together with proofs of the behavioural
properties stated in its specification.

Modelling conventions:
* byte strings (HTTP bodies, header values, HMAC digests) are `List Nat`,
  each element a byte value;
* Rust `String`/`&str` values are Lean `String` where only equality and
  concatenation matter, and `List Nat` (Unicode scalar values) where
  per-character classification matters (`slugify`);
* fallible Rust functions returning `Result` become `Except`;
* external effects (Docker engine, git, filesystem, clock, RNG) are either
  oracle records passed as arguments or are reified into explicit action
  traces, preserving the order in which the source performs them;
* the Tokio task structure of the scheduler becomes a small-step transition
  relation on an explicit scheduler state.
-/

namespace Dockyard

/-! ## Byte-string utilities -/

abbrev Bytes := List Nat

/-- Generic list comparison: does `pat` occur at the start of `l`?
Used to embed Rust `strip_prefix` / `trim_end_matches` pattern tests. -/
def leadsWith [DecidableEq α] : List α → List α → Bool
  | [], _ => true
  | _ :: _, [] => false
  | p :: ps, b :: bs => p = b && leadsWith ps bs

/-! ## `src/utils.rs` -/

/-- Embeds Rust `char::is_alphanumeric` (Unicode `Alphabetic` or `Number`)
on Unicode scalar values, with the table enumerated for code points below
`0x100` (ASCII and Latin-1); higher code points are modelled as
non-alphanumeric.  In Latin-1: the letters are `ª` (0xAA), `µ` (0xB5),
`º` (0xBA) and 0xC0–0xFF except `×` (0xD7) and `÷` (0xF7); the numeric
characters are `²` (0xB2), `³` (0xB3), `¹` (0xB9), `¼` (0xBC), `½` (0xBD),
`¾` (0xBE). -/
def rustIsAlphanumeric (c : Nat) : Bool :=
  decide ((97 ≤ c ∧ c ≤ 122) ∨ (65 ≤ c ∧ c ≤ 90) ∨ (48 ≤ c ∧ c ≤ 57) ∨
    c = 0xAA ∨ c = 0xB5 ∨ c = 0xBA ∨
    c = 0xB2 ∨ c = 0xB3 ∨ c = 0xB9 ∨ c = 0xBC ∨ c = 0xBD ∨ c = 0xBE ∨
    (0xC0 ≤ c ∧ c ≤ 0xFF ∧ c ≠ 0xD7 ∧ c ≠ 0xF7))

/-- Embeds Rust `str::to_lowercase` per scalar value, on the ASCII and
Latin-1 range where that mapping is total and one-to-one: `A`–`Z` and
`À`–`Þ` (except `×`) shift by 32; every other modelled code point is its
own lowercase. -/
def rustToLower (c : Nat) : Nat :=
  if (65 ≤ c ∧ c ≤ 90) ∨ (0xC0 ≤ c ∧ c ≤ 0xDE ∧ c ≠ 0xD7) then c + 32 else c

/-- The per-character replacement inside `slugify`:
`if c.is_alphanumeric() || c == '-' { c } else { '-' }` (45 = `-`). -/
def slugChar (c : Nat) : Nat :=
  if rustIsAlphanumeric c || c = 45 then c else 45

/-- Embeds `str::trim_matches('-')`: drop `-` from both ends. -/
def trimDash (l : List Nat) : List Nat :=
  ((l.dropWhile (· = 45)).reverse.dropWhile (· = 45)).reverse

/-- `slugify` from `src/utils.rs`: lowercase the name, replace every
character that is not alphanumeric and not `-` by `-`, trim `-` from both
ends. -/
def slugify (name : List Nat) : List Nat :=
  trimDash ((name.map rustToLower).map slugChar)

/-- Strip every trailing occurrence of `pat` (Rust
`str::trim_end_matches` with a string pattern), fuel-bounded by the
length of the subject so the definition is structural. -/
def trimEndRepAux [DecidableEq α] : Nat → List α → List α → List α
  | 0, _, l => l
  | fuel + 1, pat, l =>
    if pat ≠ [] && leadsWith pat.reverse l.reverse then
      trimEndRepAux fuel pat (l.take (l.length - pat.length))
    else l

def trimEndMatches [DecidableEq α] (pat l : List α) : List α :=
  trimEndRepAux l.length pat l

/-- `repo_name` from `src/utils.rs`: trim trailing `/`, trim trailing
`.git`, take the segment after the last `/` (`rsplit('/').next()` always
yields at least one segment, so the `unwrap_or("project")` fallback is
unreachable). -/
def repo_name (url : List Char) : List Char :=
  let t1 := (url.reverse.dropWhile (· = '/')).reverse
  let t2 := trimEndMatches ".git".data t1
  (t2.reverse.takeWhile (· ≠ '/')).reverse

/-- `repo_name` lifted to Lean `String`. -/
def repoNameStr (s : String) : String :=
  String.mk (repo_name s.data)

/-- `slugify` lifted to Lean `String` through scalar values. -/
def slugifyStr (s : String) : String :=
  String.mk ((slugify (s.data.map Char.toNat)).map Char.ofNat)

/-! ## `constant_time_eq` (`src/daemon/webhook.rs`) -/

/-- `constant_time_eq` from `src/daemon/webhook.rs`: length check, then
fold `acc | (x ^ y)` over the zipped bytes and compare with 0. -/
def constant_time_eq (a b : Bytes) : Bool :=
  if a.length ≠ b.length then false
  else ((a.zip b).foldl (fun acc p => acc ||| (p.1 ^^^ p.2)) 0) = 0

/-! ## Data model (`src/config/project.rs`, `src/models/project.rs`,
`src/error.rs`, `src/ipc/protocol.rs`) -/

inductive NetworkMode
  | LocalOnly
  | Public
  deriving DecidableEq, Repr

/-- The `Display` impl of `NetworkMode`. -/
def NetworkMode.display : NetworkMode → String
  | .LocalOnly => "Local Only"
  | .Public => "Public"

structure DomainConfig where
  hostname : Option String
  container_port : Nat
  host_port : Nat
  deriving DecidableEq, Repr

structure ContainerConfig where
  image_name : String
  container_name : String
  dockerfile_path : String
  env_vars : List (String × String)
  deriving DecidableEq, Repr

/-- `WebhookConfig`; the `secret` is kept as its UTF-8 bytes, which is
the form the webhook handler consumes (`secret.as_bytes()`). -/
structure WebhookConfig where
  secret : Bytes
  github_webhook_id : Option Nat
  deriving DecidableEq, Repr

/-- `ProjectConfig` from `src/config/project.rs`.  The `Uuid` is an
opaque `Nat`; timestamps are `Nat` (UTC seconds). -/
structure ProjectConfig where
  id : Nat
  name : String
  slug : String
  repo_url : String
  branch : String
  network_mode : NetworkMode
  domain : DomainConfig
  container : ContainerConfig
  webhook : WebhookConfig
  created_at : Nat
  updated_at : Nat
  enabled : Bool
  deriving DecidableEq, Repr

/-- `ProjectConfig::new`: `id`, the current time and the generated random
webhook secret are oracle inputs (`Uuid::new_v4`, `Utc::now`,
`generate_webhook_secret`). -/
def ProjectConfig.new (name slug repo_url branch : String)
    (network_mode : NetworkMode) (hostname : Option String)
    (container_port host_port : Nat)
    (id now : Nat) (secret : Bytes) : ProjectConfig :=
  { id := id
    name := name
    slug := slug
    repo_url := repo_url
    branch := branch
    network_mode := network_mode
    domain := { hostname := hostname, container_port := container_port,
                host_port := host_port }
    container := { image_name := "dockyard/" ++ slug
                   container_name := "dockyard-" ++ slug
                   dockerfile_path := "Dockerfile"
                   env_vars := [] }
    webhook := { secret := secret, github_webhook_id := none }
    created_at := now
    updated_at := now
    enabled := true }

inductive ProjectState
  | Building
  | Starting
  | Online
  | Offline
  | Stopped
  | Error
  | Rebuilding
  deriving DecidableEq, Repr

/-- `ProjectStatus` from `src/models/project.rs`.  `f64` statistics are
modelled as rationals (no float arithmetic is performed on them by the
core; they are passed through or zeroed). -/
structure ProjectStatus where
  slug : String
  name : String
  state : ProjectState
  container_id : Option String
  uptime_secs : Option Nat
  memory_usage_mb : Option ℚ
  cpu_percent : Option ℚ
  url : Option String
  host_port : Nat
  container_port : Nat
  network_mode : String
  last_deploy : Option Nat
  last_error : Option String
  deriving DecidableEq, Repr

/-- The variants of `DockyardError` the orchestrator core can produce. -/
inductive DockyardError
  | Docker (msg : String)
  | Config (msg : String)
  | ProjectNotFound (slug : String)
  | ProjectAlreadyExists (slug : String)
  | BuildFailed (msg : String)
  | Git (msg : String)
  deriving DecidableEq, Repr

/-- `Job` from `src/daemon/scheduler.rs`. -/
inductive Job
  | Deploy (slug : String)
  | Rebuild (slug : String) (commit_sha : Option String)
  | Stop (slug : String)
  | Delete (slug : String)
  deriving DecidableEq, Repr

structure DeployRequest where
  repo_url : String
  branch : String
  network_mode : NetworkMode
  hostname : Option String
  container_port : Nat
  env_vars : List (String × String)
  deriving DecidableEq, Repr

structure DeployResponse where
  slug : String
  name : String
  url : Option String
  webhook_url : String
  host_port : Nat
  deriving DecidableEq, Repr

/-! ## Push events (`src/models/events.rs`) -/

structure GitHubRepository where
  full_name : String
  clone_url : String
  ssh_url : String
  deriving DecidableEq, Repr

structure GitHubPusher where
  name : String
  deriving DecidableEq, Repr

structure GitHubPushEvent where
  git_ref : String
  after : String
  repository : GitHubRepository
  pusher : GitHubPusher
  deriving DecidableEq, Repr

/-- `GitHubPushEvent::branch`: `self.ref.strip_prefix("refs/heads/")`. -/
def GitHubPushEvent.branch (e : GitHubPushEvent) : Option String :=
  if leadsWith "refs/heads/".data e.git_ref.data then
    some (String.mk (e.git_ref.data.drop "refs/heads/".length))
  else none

/-- A JSON value, the abstract result of `serde_json` byte-level parsing
(which itself is external to the core). -/
inductive Json
  | str (s : String)
  | num (n : Int)
  | bool (b : Bool)
  | null
  | arr (elems : List Json)
  | obj (fields : List (String × Json))

def getStrField (fields : List (String × Json)) (k : String) : Option String :=
  match List.lookup k fields with
  | some (Json.str s) => some s
  | _ => none

/-- The serde-derived deserialization of `GitHubPushEvent` from a JSON
value: `ref` (renamed to `git_ref`), `after`, `repository` (with
`full_name`, `clone_url`, `ssh_url`) and `pusher` (with `name`) are all
required; unknown fields are ignored; `none` models a serde error. -/
def parsePushEvent (j : Json) : Option GitHubPushEvent :=
  match j with
  | Json.obj fields => do
    let r ← getStrField fields "ref"
    let a ← getStrField fields "after"
    let repo ←
      match List.lookup "repository" fields with
      | some (Json.obj rf) => do
        let fn ← getStrField rf "full_name"
        let cu ← getStrField rf "clone_url"
        let su ← getStrField rf "ssh_url"
        pure (GitHubRepository.mk fn cu su)
      | _ => none
    let pu ←
      match List.lookup "pusher" fields with
      | some (Json.obj pf) => do
        let n ← getStrField pf "name"
        pure (GitHubPusher.mk n)
      | _ => none
    pure ⟨r, a, repo, pu⟩
  | _ => none

/-! ## Paths (`src/config/paths.rs`) -/

def projects_dir : String := "/var/lib/dockyard/projects"

def project_dir (slug : String) : String := projects_dir ++ "/" ++ slug

def project_config_path (slug : String) : String :=
  project_dir slug ++ "/project.toml"

def project_repo_dir (slug : String) : String := project_dir slug ++ "/repo"

/-! ## Project store (`src/config/project.rs`) -/

/-- Filesystem operations, reified so that the order and targets of the
writes performed by the store are provable. -/
inductive FsAction
  | createDirAll (path : String)
  | writeFile (path : String)
  | renameFile (src dst : String)
  deriving DecidableEq, Repr

/-- The effect trace of `ProjectConfig::save`: `create_dir_all` on the
project directory, then `std::fs::write` of the TOML serialization
directly to the record path.  (The serialized content and the I/O error
paths live outside the core; the trace records which filesystem calls are
made, in order.) -/
def ProjectConfig.save (c : ProjectConfig) : List FsAction :=
  [.createDirAll (project_dir c.slug), .writeFile (project_config_path c.slug)]

/-! ## Webhook ingress (`src/daemon/webhook.rs`) -/

/-- The UTF-8 bytes of `"sha256="`. -/
def sha256Eq : Bytes := [115, 104, 97, 50, 53, 54, 61]

/-- Embeds `HeaderValue::to_str().unwrap_or("")`: the conversion succeeds
only when every byte is visible ASCII (or space), otherwise the handler
proceeds with the empty string. -/
def header_to_str (v : Bytes) : Bytes :=
  if v.all (fun b => 32 ≤ b && b ≤ 126) then v else []

/-- `signature.strip_prefix("sha256=").unwrap_or(signature)` on bytes. -/
def stripSha256Eq (sig : Bytes) : Bytes :=
  if leadsWith sha256Eq sig then sig.drop sha256Eq.length else sig

def hexDigit (n : Nat) : Nat := if n < 10 then 48 + n else 87 + n

/-- `hex::encode`: two lowercase hex characters per byte, high nibble
first. -/
def hexEncode : Bytes → Bytes
  | [] => []
  | b :: bs => hexDigit (b / 16) :: hexDigit (b % 16) :: hexEncode bs

structure WebhookOutcome where
  status : Nat
  enqueued : Option Job
  deriving DecidableEq, Repr

/-- `handle_webhook` from `src/daemon/webhook.rs`.

* `hmacSha256` abstracts the `hmac`/`sha2` crates: key bytes and message
  bytes to digest bytes (`HmacSha256::new_from_slice` never fails for
  HMAC, which accepts any key length, so the 500 branch is dead code);
* `decodeJson` abstracts `serde_json::from_slice` up to the typed field
  extraction, which `parsePushEvent` performs;
* `projects` is the record map read under the lock;
* the returned `enqueued` is the job sent on `scheduler_tx`, if any. -/
def handle_webhook (hmacSha256 : Bytes → Bytes → Bytes)
    (decodeJson : Bytes → Option Json)
    (projects : List (String × ProjectConfig))
    (slug : String) (header : Option Bytes) (body : Bytes) : WebhookOutcome :=
  match List.lookup slug projects with
  | none => ⟨404, none⟩
  | some config =>
    let sigOk :=
      match header with
      | some v =>
        let signature := header_to_str v
        let expected_signature := stripSha256Eq signature
        let computed := hexEncode (hmacSha256 config.webhook.secret body)
        constant_time_eq computed expected_signature
      | none => true
    if !sigOk then ⟨401, none⟩
    else
      match decodeJson body with
      | none => ⟨400, none⟩
      | some j =>
        match parsePushEvent j with
        | none => ⟨400, none⟩
        | some event =>
          match GitHubPushEvent.branch event with
          | some branch =>
            if branch = config.branch then
              ⟨200, some (.Rebuild slug (some event.after))⟩
            else ⟨200, none⟩
          | none => ⟨200, none⟩

/-! ## Daemon state operations (`src/daemon/mod.rs`) -/

/-- The observable steps of `DaemonState::deploy_project`, in program
order. -/
inductive DeployEvent
  | allocPort (port : Nat)
  | saveToDisk (slug : String)
  | enqueueJob (job : Job)
  | insertMap (slug : String)
  deriving DecidableEq, Repr

/-- Environment inputs consumed by `deploy_project`:
`find_available_port`, the configured webhook port, `Utc::now`,
`Uuid::new_v4` and `generate_webhook_secret`. -/
structure DeployCtx where
  free_port : Nat
  webhook_port : Nat
  now : Nat
  fresh_id : Nat
  secret : Bytes
  deriving DecidableEq, Repr

/-- `DaemonState::deploy_project`: derive name and slug, reject an
existing slug, allocate a port, build the record, save it, send
`Job::Deploy` on the scheduler queue, insert the record into the map,
and answer with the descriptor.  Returns the event trace, the record as
inserted, and the response. -/
def deploy_project (projects : List (String × ProjectConfig))
    (ctx : DeployCtx) (req : DeployRequest) :
    Except DockyardError (List DeployEvent × ProjectConfig × DeployResponse) :=
  let name := repoNameStr req.repo_url
  let slug := slugifyStr name
  if (List.lookup slug projects).isSome then
    .error (.ProjectAlreadyExists slug)
  else
    let host_port := ctx.free_port
    let config := ProjectConfig.new name slug req.repo_url req.branch
      req.network_mode req.hostname req.container_port host_port
      ctx.fresh_id ctx.now ctx.secret
    .ok ([.allocPort host_port, .saveToDisk slug,
          .enqueueJob (.Deploy slug), .insertMap slug],
         config,
         { slug := slug
           name := name
           url := some ("http://localhost:" ++ toString host_port)
           webhook_url := "http://YOUR_SERVER:" ++ toString ctx.webhook_port
                          ++ "/webhook/" ++ slug
           host_port := host_port })

/-- Container-engine and VCS calls, reified for the scheduler and
deletion procedures. -/
inductive EngineAction
  | gitPull (dir branch : String)
  | findDockerfile (dir : String)
  | buildImage (tag : String)
  | createStart (name tag : String) (host_port container_port : Nat)
      (env : List (String × String))
  | sleepSecs (n : Nat)
  | isRunning (name : String)
  | stopContainer (name : String)
  | removeContainer (name : String)
  | renameContainer (src dst : String)
  | tagImage (src repo tag : String)
  | removeImage (tag : String)
  | saveRecord (slug : String)
  | removeProjectDir (slug : String)
  deriving DecidableEq, Repr

/-- `DaemonState::delete_project`: look the record up (404 error when
absent), then best-effort stop/remove-container/remove-image (all three
`let _ =`, errors ignored), remove the record from the map, and remove
the on-disk directory.  Returns the engine/filesystem trace and the map
after removal. -/
def delete_project (projects : List (String × ProjectConfig))
    (slug : String) :
    Except DockyardError (List EngineAction × List (String × ProjectConfig)) :=
  match List.lookup slug projects with
  | none => .error (.ProjectNotFound slug)
  | some config =>
    .ok ([.stopContainer config.container.container_name,
          .removeContainer config.container.container_name,
          .removeImage config.container.image_name,
          .removeProjectDir slug],
         projects.filter (fun p => p.1 ≠ slug))

/-- What the container driver reports for one container: each field is
the result of the corresponding fallible call, with `none` for an engine
error (the call sites apply `unwrap_or`). -/
structure ContainerObs where
  state : Option ProjectState
  stats : Option (ℚ × ℚ)
  uptime : Option (Option Nat)

/-- The URL derivation shared by `list_project_statuses` and
`get_project_detail`: a set hostname wins regardless of network mode;
otherwise `LocalOnly` yields a localhost URL; otherwise no URL. -/
def statusUrl (config : ProjectConfig) : Option String :=
  match config.network_mode, config.domain.hostname with
  | _, some hostname => some ("https://" ++ hostname)
  | .LocalOnly, none => some ("http://localhost:" ++ toString config.domain.host_port)
  | _, _ => none

/-- The `ProjectStatus` synthesis block, written out once and invoked by
both `list_project_statuses` and `get_project_detail` (the Rust source
duplicates this block verbatim in the two methods): the state defaults
to `Offline` on a driver error; memory/CPU come from `get_container_stats`
only when the state is `Online` and default to `(0, 0)` otherwise or on
error; uptime likewise only when `Online`. -/
def synthesize_status (slug : String) (config : ProjectConfig)
    (obs : ContainerObs) : ProjectStatus :=
  let state := obs.state.getD .Offline
  let memcpu := if state = .Online then obs.stats.getD (0, 0) else (0, 0)
  let uptime := if state = .Online then obs.uptime.getD none else none
  { slug := slug
    name := config.name
    state := state
    container_id := none
    uptime_secs := uptime
    memory_usage_mb := some memcpu.1
    cpu_percent := some memcpu.2
    url := statusUrl config
    host_port := config.domain.host_port
    container_port := config.domain.container_port
    network_mode := config.network_mode.display
    last_deploy := some config.updated_at
    last_error := none }

/-- `DaemonState::list_project_statuses`: one synthesized status per
record in the map; `obsOf` is the driver, queried by container name. -/
def list_project_statuses (projects : List (String × ProjectConfig))
    (obsOf : String → ContainerObs) : List ProjectStatus :=
  projects.map (fun p => synthesize_status p.1 p.2 (obsOf p.2.container.container_name))

structure ProjectDetailResponse where
  status : ProjectStatus
  repo_url : String
  branch : String
  webhook_secret : Bytes
  deriving DecidableEq, Repr

/-- `DaemonState::get_project_detail`. -/
def get_project_detail (projects : List (String × ProjectConfig))
    (obsOf : String → ContainerObs) (slug : String) :
    Except DockyardError ProjectDetailResponse :=
  match List.lookup slug projects with
  | none => .error (.ProjectNotFound slug)
  | some config =>
    .ok { status := synthesize_status slug config
            (obsOf config.container.container_name)
          repo_url := config.repo_url
          branch := config.branch
          webhook_secret := config.webhook.secret }

/-! ## Rebuild procedure (`src/daemon/scheduler.rs`, `execute_rebuild`) -/

/-- Results of the external calls `execute_rebuild` makes, in program
order: `git_pull` (returning the commit SHA), `find_dockerfile`,
`build_image`, the timestamp used for the transient tag,
`find_available_port` for the transient container, `create_and_start`,
`is_container_running` after the 3-second stabilization sleep, the
rename, the retag, and the clock value used for `updated_at`. -/
structure RebuildOracle where
  pull : Except String String
  dockerfileFound : Except String String
  buildOk : Except String Unit
  timestamp : Int
  temp_port : Nat
  startOk : Except String String
  runningAfterWait : Except String Bool
  renameOk : Except String Unit
  tagOk : Except String Unit
  now : Nat

/-- `execute_rebuild`: blue-green rollover.  The second component is the
procedure's result; the first is the trace of external calls it issued
before returning.  The `_commit_sha` argument mirrors the source's
ignored `_commit_sha: Option<&str>` parameter (it is logged nowhere and
used nowhere). -/
def execute_rebuild (projects : List (String × ProjectConfig))
    (slug : String) (_commit_sha : Option String) (o : RebuildOracle) :
    List EngineAction × Except String Unit :=
  match List.lookup slug projects with
  | none => ([], .error ("Project '" ++ slug ++ "' not found"))
  | some config =>
    let branch := config.branch
    let container_name := config.container.container_name
    let image_name := config.container.image_name
    let container_port := config.domain.container_port
    let env := config.container.env_vars
    let repo_dir := project_repo_dir slug
    let t0 : List EngineAction := [.gitPull repo_dir branch]
    match o.pull with
    | .error e => (t0, .error e)
    | .ok _sha =>
      let new_tag := image_name ++ ":build-" ++ toString o.timestamp
      let t1 := t0 ++ [.findDockerfile repo_dir]
      match o.dockerfileFound with
      | .error e => (t1, .error e)
      | .ok _dockerfile =>
        let t2 := t1 ++ [.buildImage new_tag]
        match o.buildOk with
        | .error e => (t2, .error e)
        | .ok _ =>
          let temp_container := container_name ++ "-new"
          let t3 := t2 ++ [.createStart temp_container new_tag o.temp_port
                             container_port env]
          match o.startOk with
          | .error e => (t3, .error e)
          | .ok _cid =>
            let t4 := t3 ++ [.sleepSecs 3, .isRunning temp_container]
            match o.runningAfterWait with
            | .error e => (t4, .error e)
            | .ok running =>
              if !running then
                (t4 ++ [.removeContainer temp_container, .removeImage new_tag],
                 .error "New container failed to start")
              else
                let t5 := t4 ++ [.stopContainer container_name,
                                 .removeContainer container_name,
                                 .renameContainer temp_container container_name]
                match o.renameOk with
                | .error e => (t5, .error e)
                | .ok _ =>
                  let t6 := t5 ++ [.tagImage new_tag image_name "latest"]
                  match o.tagOk with
                  | .error e => (t6, .error e)
                  | .ok _ =>
                    (t6 ++ [.removeImage new_tag, .saveRecord slug], .ok ())

/-! ## Scheduler loop (`src/daemon/scheduler.rs`, `run`) -/

/-- The lifecycle of one spawned scheduler task: not yet at its
check-and-insert (`pending`), inside `execute_deploy`/`execute_rebuild`
holding the slug in the build-exclusion set (`running`), or exited
(`done`) — whether by the early `return`, by success, or by failure. -/
inductive TaskPhase
  | pending (job : Job)
  | running (slug : String)
  | done
  deriving DecidableEq, Repr

/-- The slug a job must hold exclusively: `Deploy` and `Rebuild` go
through the `building` set; `Stop` and `Delete` bypass it. -/
def buildSlug : Job → Option String
  | .Deploy slug => some slug
  | .Rebuild slug _ => some slug
  | .Stop _ => none
  | .Delete _ => none

/-- The scheduler's shared state: the `in_flight`/`building` set of slugs
(the contents of the `RwLock<HashSet<String>>`) and the phases of all
tasks spawned so far. -/
structure SchedState where
  building : List String
  tasks : List TaskPhase
  deriving Repr

/-- Small-step semantics of `scheduler::run` and its spawned tasks.
Every mutation of the `building` set in the source happens under the
write lock, so check-and-insert (`acquire`/`skipBusy`) and the final
`remove` (`finish`) are single atomic steps. -/
inductive SchedStep : SchedState → SchedState → Prop
  | recv (s : SchedState) (job : Job) :
      SchedStep s ⟨s.building, s.tasks ++ [.pending job]⟩
  | skipBusy (s : SchedState) (i : Nat) (job : Job) (slug : String) :
      s.tasks.get? i = some (.pending job) →
      buildSlug job = some slug →
      slug ∈ s.building →
      SchedStep s ⟨s.building, s.tasks.set i .done⟩
  | acquire (s : SchedState) (i : Nat) (job : Job) (slug : String) :
      s.tasks.get? i = some (.pending job) →
      buildSlug job = some slug →
      slug ∉ s.building →
      SchedStep s ⟨slug :: s.building, s.tasks.set i (.running slug)⟩
  | finish (s : SchedState) (i : Nat) (slug : String) :
      s.tasks.get? i = some (.running slug) →
      SchedStep s ⟨s.building.erase slug, s.tasks.set i .done⟩
  | bypass (s : SchedState) (i : Nat) (job : Job) :
      s.tasks.get? i = some (.pending job) →
      buildSlug job = none →
      SchedStep s ⟨s.building, s.tasks.set i .done⟩

/-- The scheduler starts with an empty exclusion set and no tasks. -/
def initSched : SchedState := ⟨[], []⟩

/-- States the scheduler can reach. -/
def SchedReachable (s : SchedState) : Prop :=
  Relation.ReflTransGen SchedStep initSched s

/-- How many tasks are currently executing Deploy or Rebuild on `slug`. -/
def runningCount (ts : List TaskPhase) (slug : String) : Nat :=
  (ts.filter (fun t => t = .running slug)).length

/-- The inductive invariant of the scheduler: per slug, at most one task
executes a build, and only while the slug sits in the exclusion set. -/
def SchedInv (s : SchedState) : Prop :=
  ∀ slug, runningCount s.tasks slug ≤ 1 ∧
    (slug ∉ s.building → runningCount s.tasks slug = 0)

/-! ## Auxiliary predicates used to state the specification claims -/

/-- The character class `[a-z0-9-]` named by the specification. -/
def isAsciiSlugChar (c : Nat) : Bool :=
  decide ((97 ≤ c ∧ c ≤ 122) ∨ (48 ≤ c ∧ c ≤ 57) ∨ c = 45)

/-- Is a filesystem action a rename? -/
def isRename : FsAction → Bool
  | .renameFile _ _ => true
  | _ => false

/-- A representative stored record, as `deploy_project` would create it
for `https://example.com/acme/app.git` with branch `main`, used for
concrete counterexamples and witnesses. -/
def sampleConfig : ProjectConfig :=
  ProjectConfig.new "app" "app" "https://example.com/acme/app.git" "main"
    .LocalOnly none 80 3000 7 1700000000 [115, 101, 99]

/-! # Theorems -/

/-! ## Helper lemmas -/

theorem lookup_filter_ne_key {β : Type} (l : List (String × β)) (a : String) :
    List.lookup a (l.filter (fun p => p.1 ≠ a)) = none := by
  induction l with
  | nil => rfl
  | cons hd tl ih =>
    obtain ⟨k, v⟩ := hd
    by_cases hh : k = a
    · simpa [List.filter_cons, hh] using ih
    · have hba : (a == k) = false := beq_eq_false_iff_ne.mpr (Ne.symm hh)
      simp only [List.filter_cons, ne_eq, hh, not_false_eq_true, decide_True, if_pos]
      rw [List.lookup.eq_def]
      simp only [hba]
      simpa using ih

/-! ## C9 — the rebuild procedure ignores the job's commit SHA -/

/-- C9: `execute_rebuild` is independent of the `commit_sha` carried by
the `Rebuild` job — two jobs for the same slug differing only in
`commit_sha` (including `None` versus `Some`) produce the same external
call trace and the same result. -/
theorem rebuild_independent_of_commit_sha
    (projects : List (String × ProjectConfig)) (slug : String)
    (sha1 sha2 : Option String) (o : RebuildOracle) :
    execute_rebuild projects slug sha1 o = execute_rebuild projects slug sha2 o :=
  rfl

/-! ## C5 — `ProjectConfig::save` does not write atomically -/

/-- Counterexample to C5: saving a concrete record issues exactly a
`create_dir_all` and a direct write of the record file itself; the trace
contains no write to a temporary sibling and no rename. -/
theorem save_writes_record_file_directly :
    ProjectConfig.save sampleConfig =
      [.createDirAll "/var/lib/dockyard/projects/app",
       .writeFile "/var/lib/dockyard/projects/app/project.toml"] ∧
    (ProjectConfig.save sampleConfig).any isRename = false := by
  constructor <;> rfl

/-- C5 (amended): for every record, `save` creates the project directory
and then writes the serialized content directly to the record file; no
temporary file and no rename are involved. -/
theorem save_trace_shape (c : ProjectConfig) :
    ProjectConfig.save c =
      [.createDirAll (project_dir c.slug), .writeFile (project_config_path c.slug)] ∧
    (ProjectConfig.save c).any isRename = false :=
  ⟨rfl, rfl⟩

/-! ## C7 — `delete_project` is not idempotent -/

/-- Counterexample to C7: deleting `app` succeeds and empties the map,
but the second `delete_project` call fails with `ProjectNotFound` instead
of behaving like the first. -/
theorem delete_second_call_fails :
    delete_project [("app", sampleConfig)] "app" =
      .ok ([.stopContainer "dockyard-app", .removeContainer "dockyard-app",
            .removeImage "dockyard/app", .removeProjectDir "app"], []) ∧
    delete_project [] "app" = .error (.ProjectNotFound "app") := by
  constructor <;> rfl

/-- C7 (amended): `delete_project` performs best-effort stop, container
removal and image removal (in the trace, errors ignored), then removes
the record from the map and the on-disk directory; it is not idempotent:
once the record is gone, a second call fails with `ProjectNotFound`. -/
theorem delete_removes_record_second_fails
    (projects : List (String × ProjectConfig)) (slug : String)
    (config : ProjectConfig)
    (h : List.lookup slug projects = some config) :
    delete_project projects slug =
      .ok ([.stopContainer config.container.container_name,
            .removeContainer config.container.container_name,
            .removeImage config.container.image_name,
            .removeProjectDir slug],
           projects.filter (fun p => p.1 ≠ slug)) ∧
    List.lookup slug (projects.filter (fun p => p.1 ≠ slug)) = none ∧
    delete_project (projects.filter (fun p => p.1 ≠ slug)) slug =
      .error (.ProjectNotFound slug) := by
  refine ⟨?_, lookup_filter_ne_key projects slug, ?_⟩
  · unfold delete_project
    rw [h]
  · unfold delete_project
    rw [lookup_filter_ne_key projects slug]

/-- Witness for C7 (amended) at a concrete map. -/
theorem delete_removes_record_second_fails_witness :
    delete_project [("app", sampleConfig)] "app" =
      .ok ([.stopContainer sampleConfig.container.container_name,
            .removeContainer sampleConfig.container.container_name,
            .removeImage sampleConfig.container.image_name,
            .removeProjectDir "app"],
           [("app", sampleConfig)].filter (fun p => p.1 ≠ "app")) ∧
    List.lookup "app" ([("app", sampleConfig)].filter (fun p => p.1 ≠ "app")) = none ∧
    delete_project ([("app", sampleConfig)].filter (fun p => p.1 ≠ "app")) "app" =
      .error (.ProjectNotFound "app") :=
  delete_removes_record_second_fails [("app", sampleConfig)] "app" sampleConfig (by rfl)

/-! ## C8 — non-Online statuses: uptime omitted, stats zeroed (not omitted) -/

/-- Counterexample to C8: for a record observed `Stopped`, the
synthesized status still carries `Some 0` memory and CPU — the stats
fields are zeroed, not omitted (only uptime is omitted). -/
theorem stopped_status_keeps_zero_stats :
    (synthesize_status "app" sampleConfig ⟨some .Stopped, some (5, 7), some (some 42)⟩).memory_usage_mb = some 0 ∧
    (synthesize_status "app" sampleConfig ⟨some .Stopped, some (5, 7), some (some 42)⟩).cpu_percent = some 0 ∧
    (synthesize_status "app" sampleConfig ⟨some .Stopped, some (5, 7), some (some 42)⟩).uptime_secs = none := by
  refine ⟨rfl, rfl, rfl⟩

/-- C8 (amended): whenever the observed state (defaulted to `Offline` on
a driver error) is not `Online`, the synthesized status — as used by both
`list_project_statuses` and `get_project_detail` — omits uptime and
reports the stats as zero (`Some 0`), ignoring whatever the driver
returned for them. -/
theorem not_online_status_fields (slug : String) (config : ProjectConfig)
    (obs : ContainerObs) (h : obs.state.getD .Offline ≠ .Online) :
    (synthesize_status slug config obs).uptime_secs = none ∧
    (synthesize_status slug config obs).memory_usage_mb = some 0 ∧
    (synthesize_status slug config obs).cpu_percent = some 0 := by
  unfold synthesize_status
  simp [h]

/-- Witness for C8 (amended) at a concrete stopped container. -/
theorem not_online_status_fields_witness :
    (synthesize_status "app" sampleConfig ⟨some .Stopped, some (5, 7), some (some 42)⟩).uptime_secs = none ∧
    (synthesize_status "app" sampleConfig ⟨some .Stopped, some (5, 7), some (some 42)⟩).memory_usage_mb = some 0 ∧
    (synthesize_status "app" sampleConfig ⟨some .Stopped, some (5, 7), some (some 42)⟩).cpu_percent = some 0 :=
  not_online_status_fields "app" sampleConfig ⟨some .Stopped, some (5, 7), some (some 42)⟩ (by decide)

/-! ## C10 — the deploy response URL is always the localhost URL -/

/-- C10: every accepted deploy answers with
`url = Some("http://localhost:<host_port>")`, whatever the request's
network mode and hostname; and when a hostname was set, the record as
inserted makes `detail`/`list` derive the different URL
`https://<hostname>`. -/
theorem deploy_response_url_is_localhost
    (projects : List (String × ProjectConfig)) (ctx : DeployCtx)
    (req : DeployRequest) (trace : List DeployEvent)
    (config : ProjectConfig) (resp : DeployResponse)
    (h : deploy_project projects ctx req = .ok (trace, config, resp)) :
    resp.url = some ("http://localhost:" ++ toString ctx.free_port) ∧
    ∀ host, req.hostname = some host →
      statusUrl config = some ("https://" ++ host) := by
  unfold deploy_project at h
  dsimp only at h
  split at h
  · exact absurd h (by simp)
  · simp only [Except.ok.injEq, Prod.mk.injEq] at h
    obtain ⟨-, hconf, hresp⟩ := h
    constructor
    · rw [← hresp]
    · intro host hh
      rw [← hconf]
      unfold statusUrl ProjectConfig.new
      simp only [hh]

/-- Witness for C10: a public deploy with a hostname still answers the
localhost URL, while the inserted record derives the hostname URL. -/
theorem deploy_response_url_is_localhost_witness :
    (deploy_project [] ⟨3000, 9876, 1700000000, 7, [115, 101, 99]⟩
        ⟨"https://example.com/acme/app.git", "main", .Public,
         some "app.example.com", 80, []⟩).toOption.map
      (fun out => (out.2.2.url, statusUrl out.2.1)) =
    some (some "http://localhost:3000", some "https://app.example.com") := by
  obtain ⟨trace, config, resp, h⟩ :
      ∃ t c r, deploy_project [] ⟨3000, 9876, 1700000000, 7, [115, 101, 99]⟩
        ⟨"https://example.com/acme/app.git", "main", .Public,
         some "app.example.com", 80, []⟩ = .ok (t, c, r) := ⟨_, _, _, rfl⟩
  have hmain := deploy_response_url_is_localhost _ _ _ _ _ _ h
  rw [h]
  simp only [Except.toOption, Option.map_some']
  rw [hmain.1, hmain.2 "app.example.com" rfl]
  rfl

/-! ## C2 — the Deploy job is enqueued before the record reaches the map -/

/-- Evaluation of `deploy_project` at a concrete failing input: the
event trace sends `Job::Deploy` on the scheduler queue *before* the
record is inserted into the in-memory map (the insertion is the last
step), contradicting the specified ordering guarantee — a scheduler task
spawned for the job can look the slug up before the insertion and fail
with "Project not found". -/
theorem deploy_enqueues_before_insert :
    (deploy_project [] ⟨3000, 9876, 1700000000, 7, [115, 101, 99]⟩
        ⟨"https://example.com/acme/app.git", "main", .LocalOnly, none, 80, []⟩).toOption.map
      (fun out => out.1) =
    some [.allocPort 3000, .saveToDisk "app",
          .enqueueJob (.Deploy "app"), .insertMap "app"] ∧
    List.indexOf (DeployEvent.enqueueJob (.Deploy "app"))
        [DeployEvent.allocPort 3000, .saveToDisk "app",
         .enqueueJob (.Deploy "app"), .insertMap "app"] <
    List.indexOf (DeployEvent.insertMap "app")
        [DeployEvent.allocPort 3000, .saveToDisk "app",
         .enqueueJob (.Deploy "app"), .insertMap "app"] := by
  constructor
  · rfl
  · decide

/-! ## C6 — `slugify`: idempotence and output character class -/

theorem trimDash_def (l : List Nat) :
    trimDash l = List.rdropWhile (fun c => decide (c = 45))
      (List.dropWhile (fun c => decide (c = 45)) l) := rfl

theorem mem_of_mem_trimDash {c : Nat} {l : List Nat} (h : c ∈ trimDash l) :
    c ∈ l := by
  rw [trimDash_def] at h
  exact (List.dropWhile_suffix _).subset ((List.rdropWhile_prefix _ _).subset h)

theorem trimDash_head_ne (l : List Nat) (a : Nat)
    (h : (trimDash l).head? = some a) : a ≠ 45 := by
  rw [trimDash_def] at h
  set p : Nat → Bool := fun c => decide (c = 45) with hp
  set A := List.dropWhile p l with hA
  have hne : List.rdropWhile p A ≠ [] := by
    intro hnil
    rw [hnil] at h
    simp at h
  have hAne : A ≠ [] := by
    intro hnil
    apply hne
    rw [hnil, List.rdropWhile_nil]
  intro hEq
  subst hEq
  rw [List.head?_eq_head hne] at h
  have h1 : (List.rdropWhile p A).head hne = 45 := Option.some_inj.mp h
  have hhead := List.IsPrefix.head (List.rdropWhile_prefix p A) hne
  have h2 : A.head hAne = 45 := hhead.symm.trans h1
  have h3 : p (A.head hAne) = false := List.head_dropWhile_not p l hAne
  rw [h2] at h3
  simp [hp] at h3

theorem trimDash_getLast_ne (l : List Nat) (a : Nat)
    (h : (trimDash l).getLast? = some a) : a ≠ 45 := by
  rw [trimDash_def] at h
  set p : Nat → Bool := fun c => decide (c = 45) with hp
  set A := List.dropWhile p l with hA
  have hne : List.rdropWhile p A ≠ [] := by
    intro hnil
    rw [hnil] at h
    simp at h
  have hlast := List.rdropWhile_last_not p A hne
  intro hEq
  subst hEq
  rw [List.getLast?_eq_getLast_of_ne_nil hne] at h
  have h1 := Option.some_inj.mp h
  rw [h1] at hlast
  simp [hp] at hlast

theorem trimDash_eq_self (l : List Nat)
    (h1 : ∀ a, l.head? = some a → a ≠ 45)
    (h2 : ∀ a, l.getLast? = some a → a ≠ 45) :
    trimDash l = l := by
  rw [trimDash_def]
  have hdw : List.dropWhile (fun c => decide (c = 45)) l = l := by
    cases l with
    | nil => rfl
    | cons hd tl =>
      rw [List.dropWhile_cons, if_neg]
      simp only [decide_eq_true_eq]
      exact h1 hd rfl
  rw [hdw]
  rw [List.rdropWhile_eq_self_iff]
  intro hl
  simp only [decide_eq_true_eq]
  exact h2 _ (List.getLast?_eq_getLast_of_ne_nil hl)

theorem rustToLower_idem (c : Nat) :
    rustToLower (rustToLower c) = rustToLower c := by
  unfold rustToLower
  split
  case isTrue h => rw [if_neg (by omega)]
  case isFalse h => rfl

theorem slugChar_cases (x : Nat) :
    (slugChar x = x ∧ (rustIsAlphanumeric x || decide (x = 45)) = true) ∨
      slugChar x = 45 := by
  unfold slugChar
  by_cases h : (rustIsAlphanumeric x || decide (x = 45)) = true
  · exact Or.inl ⟨if_pos h, h⟩
  · exact Or.inr (if_neg h)

theorem slugChar_idem (x : Nat) : slugChar (slugChar x) = slugChar x := by
  rcases slugChar_cases x with ⟨he, -⟩ | h45
  · rw [he]
    exact he
  · rw [h45]
    decide

theorem lower_slugChar_lower (a : Nat) :
    rustToLower (slugChar (rustToLower a)) = slugChar (rustToLower a) := by
  rcases slugChar_cases (rustToLower a) with ⟨he, -⟩ | h45
  · rw [he]
    exact rustToLower_idem a
  · rw [h45]
    decide

theorem map_fixed {α : Type} (f : α → α) :
    ∀ l : List α, (∀ c ∈ l, f c = c) → l.map f = l := by
  intro l
  induction l with
  | nil => intro _; rfl
  | cons hd tl ih =>
    intro h
    simp only [List.map_cons]
    rw [h hd (by simp), ih (fun c hc => h c (by simp [hc]))]

theorem mem_slugify_shape {c : Nat} {name : List Nat} (h : c ∈ slugify name) :
    ∃ a ∈ name, c = slugChar (rustToLower a) := by
  unfold slugify at h
  have h2 := mem_of_mem_trimDash h
  rw [List.map_map] at h2
  obtain ⟨a, hmem, rfl⟩ := List.mem_map.mp h2
  exact ⟨a, hmem, rfl⟩

theorem ascii_slugChar (a : Nat) (ha : a < 128) :
    isAsciiSlugChar (slugChar (rustToLower a)) = true := by
  unfold rustToLower
  split
  case isTrue h =>
    have hcond : (rustIsAlphanumeric (a + 32) || decide ((a + 32) = 45)) = true := by
      simp only [rustIsAlphanumeric, Bool.or_eq_true, decide_eq_true_eq]
      omega
    unfold slugChar
    rw [if_pos hcond]
    simp only [isAsciiSlugChar, decide_eq_true_eq]
    omega
  case isFalse h =>
    unfold slugChar
    by_cases h2 : (rustIsAlphanumeric a || decide (a = 45)) = true
    · rw [if_pos h2]
      simp only [rustIsAlphanumeric, Bool.or_eq_true, decide_eq_true_eq] at h2
      simp only [isAsciiSlugChar, decide_eq_true_eq]
      omega
    · rw [if_neg h2]
      decide

/-- Counterexample to C6: Rust `char::is_alphanumeric` is Unicode-wide,
so `slugify` keeps `é` (U+00E9) unchanged — the output is not limited to
`[a-z0-9-]`. -/
theorem slugify_keeps_latin1_letters :
    slugify [233] = [233] ∧ isAsciiSlugChar 233 = false := by
  decide

/-- C6 (amended): `slugify` is idempotent, its output contains only
characters that are alphanumeric (in the Unicode sense of the source) or
`-`, with no leading or trailing `-`; when the input is pure ASCII the
output characters all lie in `[a-z0-9-]`. -/
theorem slugify_idem_and_charset (name : List Nat) :
    slugify (slugify name) = slugify name ∧
    (∀ c ∈ slugify name, (rustIsAlphanumeric c || decide (c = 45)) = true) ∧
    (∀ a, (slugify name).head? = some a → a ≠ 45) ∧
    (∀ a, (slugify name).getLast? = some a → a ≠ 45) ∧
    ((∀ c ∈ name, c < 128) → ∀ c ∈ slugify name, isAsciiSlugChar c = true) := by
  refine ⟨?_, ?_, trimDash_head_ne _, trimDash_getLast_ne _, ?_⟩
  · have hfix : ∀ c ∈ slugify name, (slugChar ∘ rustToLower) c = c := by
      intro c hc
      obtain ⟨a, -, rfl⟩ := mem_slugify_shape hc
      show slugChar (rustToLower (slugChar (rustToLower a))) = _
      rw [lower_slugChar_lower a]
      exact slugChar_idem _
    conv_lhs => rw [slugify]
    rw [List.map_map, map_fixed _ _ hfix]
    exact trimDash_eq_self _ (trimDash_head_ne _) (trimDash_getLast_ne _)
  · intro c hc
    obtain ⟨a, -, rfl⟩ := mem_slugify_shape hc
    rcases slugChar_cases (rustToLower a) with ⟨he, hcond⟩ | h45
    · rw [he]
      exact hcond
    · rw [h45]
      decide
  · intro hascii c hc
    obtain ⟨a, hmem, rfl⟩ := mem_slugify_shape hc
    exact ascii_slugChar a (hascii a hmem)

/-- Witness for C6 (amended) on the ASCII input "My App!". -/
theorem slugify_idem_and_charset_witness :
    slugify (slugify [77, 121, 32, 65, 112, 112, 33]) =
      slugify [77, 121, 32, 65, 112, 112, 33] ∧
    ∀ c ∈ slugify [77, 121, 32, 65, 112, 112, 33], isAsciiSlugChar c = true :=
  ⟨(slugify_idem_and_charset [77, 121, 32, 65, 112, 112, 33]).1,
   (slugify_idem_and_charset [77, 121, 32, 65, 112, 112, 33]).2.2.2.2 (by decide)⟩

/-! ## C3 — webhook signature verification: 401 iff present-and-mismatched -/


theorem nat_or_eq_zero {a b : Nat} : a ||| b = 0 ↔ a = 0 ∧ b = 0 := by
  constructor
  · intro h
    constructor
    · apply Nat.eq_of_testBit_eq
      intro i
      have := congrArg (fun n => Nat.testBit n i) h
      simp only [Nat.testBit_lor] at this
      simp only [Nat.zero_testBit]
      cases hb : Nat.testBit a i <;> simp_all
    · apply Nat.eq_of_testBit_eq
      intro i
      have := congrArg (fun n => Nat.testBit n i) h
      simp only [Nat.testBit_lor] at this
      simp only [Nat.zero_testBit]
      cases hb : Nat.testBit b i <;> simp_all
  · rintro ⟨rfl, rfl⟩
    rfl

theorem foldl_or_eq_zero {α : Type} (f : α → Nat) (l : List α) (init : Nat) :
    l.foldl (fun acc x => acc ||| f x) init = 0 ↔ init = 0 ∧ ∀ x ∈ l, f x = 0 := by
  induction l generalizing init with
  | nil => simp
  | cons hd tl ih =>
    simp only [List.foldl_cons]
    rw [ih]
    rw [nat_or_eq_zero]
    constructor
    · rintro ⟨⟨h1, h2⟩, h3⟩
      exact ⟨h1, by
        intro x hx
        rcases List.mem_cons.mp hx with rfl | hx
        · exact h2
        · exact h3 x hx⟩
    · rintro ⟨h1, h2⟩
      exact ⟨⟨h1, h2 hd (by simp)⟩, fun x hx => h2 x (by simp [hx])⟩

theorem mem_zip_same {α : Type} {p : α × α} :
    ∀ {l : List α}, p ∈ l.zip l → p.1 = p.2 := by
  intro l
  induction l with
  | nil => intro h; simp at h
  | cons x xs ih =>
    intro h
    rw [List.zip_cons_cons] at h
    rcases List.mem_cons.mp h with rfl | h
    · rfl
    · exact ih h

theorem zip_eq_of_len {a b : Bytes} (hlen : a.length = b.length)
    (h : ∀ p ∈ a.zip b, p.1 = p.2) : a = b := by
  induction a generalizing b with
  | nil =>
    cases b with
    | nil => rfl
    | cons y ys => simp at hlen
  | cons x xs ih =>
    cases b with
    | nil => simp at hlen
    | cons y ys =>
      have hxy : x = y := h (x, y) (by simp [List.zip_cons_cons])
      have htl : xs = ys := by
        apply ih (by simpa using hlen)
        intro p hp
        exact h p (by simp [List.zip_cons_cons, hp])
      rw [hxy, htl]

theorem constant_time_eq_iff (a b : Bytes) :
    constant_time_eq a b = true ↔ a = b := by
  unfold constant_time_eq
  split
  case isTrue hne =>
    constructor
    · intro h
      simp at h
    · intro h
      exact absurd (congrArg List.length h) hne
  case isFalse hne =>
    push_neg at hne
    rw [decide_eq_true_eq]
    rw [foldl_or_eq_zero (fun p : Nat × Nat => p.1 ^^^ p.2) (a.zip b) 0]
    constructor
    · rintro ⟨-, h⟩
      apply zip_eq_of_len hne
      intro p hp
      exact Nat.xor_eq_zero.mp (h p hp)
    · rintro rfl
      exact ⟨rfl, fun p hp => Nat.xor_eq_zero.mpr (mem_zip_same hp)⟩

theorem leadsWith_append {α : Type} [DecidableEq α] (pat rest : List α) :
    leadsWith pat (pat ++ rest) = true := by
  induction pat with
  | nil => rfl
  | cons x xs ih => simp [leadsWith, ih]

theorem leadsWith_decomp {α : Type} [DecidableEq α] :
    ∀ (pat l : List α), leadsWith pat l = true → l = pat ++ l.drop pat.length := by
  intro pat
  induction pat with
  | nil => intro l _; rfl
  | cons x xs ih =>
    intro l h
    cases l with
    | nil => simp [leadsWith] at h
    | cons y ys =>
      simp only [leadsWith, Bool.and_eq_true, decide_eq_true_eq] at h
      obtain ⟨rfl, h2⟩ := h
      simpa using ih ys h2

theorem hexDigit_range (n : Nat) (h : n < 16) :
    32 ≤ hexDigit n ∧ hexDigit n ≤ 126 := by
  unfold hexDigit
  split <;> omega

theorem mem_hexEncode {x : Nat} :
    ∀ {bs : Bytes}, x ∈ hexEncode bs →
      ∃ d ∈ bs, x = hexDigit (d / 16) ∨ x = hexDigit (d % 16) := by
  intro bs
  induction bs with
  | nil => intro h; simp [hexEncode] at h
  | cons b rest ih =>
    intro h
    rw [hexEncode] at h
    rcases List.mem_cons.mp h with rfl | h
    · exact ⟨b, by simp, Or.inl rfl⟩
    · rcases List.mem_cons.mp h with rfl | h
      · exact ⟨b, by simp, Or.inr rfl⟩
      · obtain ⟨d, hd, hx⟩ := ih h
        exact ⟨d, by simp [hd], hx⟩

theorem hexEncode_ne_nil {bs : Bytes} (h : bs.length = 32) :
    hexEncode bs ≠ [] := by
  cases bs with
  | nil => simp at h
  | cons b rest => simp [hexEncode]

theorem hexEncode_all_visible {bs : Bytes} (hb : ∀ x ∈ bs, x < 256) :
    ∀ x ∈ hexEncode bs, 32 ≤ x ∧ x ≤ 126 := by
  intro x hx
  obtain ⟨d, hd, hcase⟩ := mem_hexEncode hx
  have hd256 := hb d hd
  rcases hcase with rfl | rfl
  · exact hexDigit_range _ (by omega)
  · exact hexDigit_range _ (Nat.mod_lt _ (by omega))

theorem stripSha256Eq_nil : stripSha256Eq [] = [] := rfl

theorem header_to_str_valid {v : Bytes}
    (h : v.all (fun b => 32 ≤ b && b ≤ 126) = true) : header_to_str v = v := by
  unfold header_to_str
  rw [if_pos h]

theorem header_to_str_invalid {v : Bytes}
    (h : ¬ v.all (fun b => 32 ≤ b && b ≤ 126) = true) : header_to_str v = [] := by
  unfold header_to_str
  rw [if_neg h]

theorem valid_of_strip_eq_hex {v : Bytes} {digest : Bytes}
    (hb : ∀ x ∈ digest, x < 256)
    (h : stripSha256Eq v = hexEncode digest) :
    v.all (fun b => 32 ≤ b && b ≤ 126) = true := by
  rw [List.all_eq_true]
  intro x hx
  simp only [Bool.and_eq_true, decide_eq_true_eq]
  unfold stripSha256Eq at h
  split at h
  case isTrue hl =>
    have hdecomp := leadsWith_decomp sha256Eq v hl
    rw [h] at hdecomp
    rw [hdecomp] at hx
    rcases List.mem_append.mp hx with hx | hx
    · fin_cases hx <;> omega
    · exact hexEncode_all_visible hb x hx
  case isFalse hl =>
    rw [h] at hx
    exact hexEncode_all_visible hb x hx


/-- C3: for a known slug, the webhook handler returns 401 exactly when
the `x-hub-signature-256` header is present and its value, after
optionally stripping the `sha256=` prefix, differs from the lowercase
hex encoding of HMAC-SHA256(project secret, body); an absent header is
accepted (processing continues to body parsing, answering 200 or 400);
and `constant_time_eq` accepts exactly byte-for-byte equality.  The two
digest hypotheses record that HMAC-SHA256 yields 32 bytes. -/
theorem webhook_401_iff (hmac : Bytes → Bytes → Bytes)
    (decodeJson : Bytes → Option Json)
    (projects : List (String × ProjectConfig)) (slug : String)
    (config : ProjectConfig) (header : Option Bytes) (body : Bytes)
    (hfind : List.lookup slug projects = some config)
    (hlen : (hmac config.webhook.secret body).length = 32)
    (hbytes : ∀ x ∈ hmac config.webhook.secret body, x < 256) :
    ((handle_webhook hmac decodeJson projects slug header body).status = 401 ↔
      ∃ v, header = some v ∧
        stripSha256Eq v ≠ hexEncode (hmac config.webhook.secret body)) ∧
    (header = none →
      (handle_webhook hmac decodeJson projects slug header body).status = 200 ∨
      (handle_webhook hmac decodeJson projects slug header body).status = 400) ∧
    (∀ a b : Bytes, constant_time_eq a b = true ↔ a = b) := by
  unfold handle_webhook
  rw [hfind]
  dsimp only
  refine ⟨?_, ?_, fun a b => constant_time_eq_iff a b⟩
  · cases header with
    | none =>
      dsimp only
      constructor
      · intro h
        exfalso
        revert h
        cases hdec : decodeJson body with
        | none => simp
        | some j =>
          cases hp : parsePushEvent j with
          | none => simp [hp]
          | some ev =>
            cases hb : GitHubPushEvent.branch ev with
            | none => simp [hp, hb]
            | some br => by_cases heq : br = config.branch <;> simp [hp, hb, heq]
      · rintro ⟨v, hv, -⟩
        exact absurd hv (by simp)
    | some v =>
      dsimp only
      by_cases hsig : constant_time_eq (hexEncode (hmac config.webhook.secret body))
          (stripSha256Eq (header_to_str v)) = true
      · have hexp : stripSha256Eq (header_to_str v) =
            hexEncode (hmac config.webhook.secret body) :=
          ((constant_time_eq_iff _ _).mp hsig).symm
        have hvalid : v.all (fun b => 32 ≤ b && b ≤ 126) = true := by
          by_cases hval : v.all (fun b => 32 ≤ b && b ≤ 126) = true
          · exact hval
          · exfalso
            rw [header_to_str_invalid hval, stripSha256Eq_nil] at hexp
            exact hexEncode_ne_nil hlen hexp.symm
        rw [header_to_str_valid hvalid] at hexp
        rw [if_neg (by simp [hsig])]
        constructor
        · intro h
          exfalso
          revert h
          cases hdec : decodeJson body with
          | none => simp
          | some j =>
            cases hp : parsePushEvent j with
            | none => simp [hp]
            | some ev =>
              cases hb : GitHubPushEvent.branch ev with
              | none => simp [hp, hb]
              | some br => by_cases heq : br = config.branch <;> simp [hp, hb, heq]
        · rintro ⟨v', hv', hne⟩
          exfalso
          apply hne
          rw [← Option.some_inj.mp hv']
          exact hexp
      · rw [if_pos (by simp [Bool.not_eq_true] at hsig ⊢; exact hsig)]
        constructor
        · intro _h401
          refine ⟨v, rfl, ?_⟩
          intro hstrip
          apply hsig
          have hval := valid_of_strip_eq_hex hbytes hstrip
          rw [header_to_str_valid hval, hstrip]
          exact (constant_time_eq_iff _ _).mpr rfl
        · intro _hex
          rfl
  · intro hnone
    subst hnone
    dsimp only
    cases hdec : decodeJson body with
    | none => simp
    | some j =>
      cases hp : parsePushEvent j with
      | none => simp [hp]
      | some ev =>
        cases hb : GitHubPushEvent.branch ev with
        | none => simp [hp, hb]
        | some br => by_cases heq : br = config.branch <;> simp [hp, hb, heq]


/-- Witness for C3: a concrete project, a mismatching one-byte signature
header and an empty body produce 401. -/
theorem webhook_401_iff_witness :
    (handle_webhook (fun _ _ => List.replicate 32 0) (fun _ => none)
      [("app", sampleConfig)] "app" (some [48]) []).status = 401 :=
  (webhook_401_iff (fun _ _ => List.replicate 32 0) (fun _ => none)
      [("app", sampleConfig)] "app" sampleConfig (some [48]) []
      rfl (by simp) (by decide)).1.mpr ⟨[48], rfl, by decide⟩

/-! ## C4 — push-event bodies require repository and pusher metadata -/


/-- Counterexample to C4: a correctly signed POST for a `main`-tracking
project whose body parses to a JSON object with only `ref` and `after`
is answered 400, not 200, and enqueues nothing — the serde-derived event
type also requires `repository` (`full_name`, `clone_url`, `ssh_url`)
and `pusher` (`name`). -/
theorem webhook_minimal_body_400 :
    handle_webhook (fun _ _ => List.replicate 32 0)
      (fun _ => some (Json.obj
        [("ref", Json.str "refs/heads/main"), ("after", Json.str "abc123")]))
      [("app", sampleConfig)] "app"
      (some (sha256Eq ++ hexEncode (List.replicate 32 0))) [] =
      ⟨400, none⟩ := by
  decide

/-- C4 (amended): for a project tracking `main`, a correctly signed POST
whose body parses to a push event with `ref = "refs/heads/main"`,
`after = <sha>` *and* the required `repository`/`pusher` metadata is
answered 200 and enqueues `Rebuild{slug, Some sha}`. -/
theorem webhook_full_body_enqueues
    (hmac : Bytes → Bytes → Bytes) (decodeJson : Bytes → Option Json)
    (projects : List (String × ProjectConfig)) (slug : String)
    (config : ProjectConfig) (body : Bytes)
    (sha fn cu su pn : String)
    (hfind : List.lookup slug projects = some config)
    (hbranch : config.branch = "main")
    (hbytes : ∀ x ∈ hmac config.webhook.secret body, x < 256)
    (hdecode : decodeJson body = some (Json.obj
      [("ref", Json.str "refs/heads/main"), ("after", Json.str sha),
       ("repository", Json.obj [("full_name", Json.str fn),
          ("clone_url", Json.str cu), ("ssh_url", Json.str su)]),
       ("pusher", Json.obj [("name", Json.str pn)])])) :
    handle_webhook hmac decodeJson projects slug
      (some (sha256Eq ++ hexEncode (hmac config.webhook.secret body))) body =
      ⟨200, some (.Rebuild slug (some sha))⟩ := by
  unfold handle_webhook
  rw [hfind]
  dsimp only
  have hvalid : (sha256Eq ++ hexEncode (hmac config.webhook.secret body)).all
      (fun b => 32 ≤ b && b ≤ 126) = true := by
    rw [List.all_eq_true]
    intro x hx
    simp only [Bool.and_eq_true, decide_eq_true_eq]
    rcases List.mem_append.mp hx with hx | hx
    · fin_cases hx <;> omega
    · exact hexEncode_all_visible hbytes x hx
  rw [header_to_str_valid hvalid]
  have hstrip : stripSha256Eq (sha256Eq ++ hexEncode (hmac config.webhook.secret body)) =
      hexEncode (hmac config.webhook.secret body) := by
    unfold stripSha256Eq
    rw [if_pos (leadsWith_append _ _)]
    exact List.drop_left _ _
  rw [hstrip]
  rw [(constant_time_eq_iff _ _).mpr rfl]
  rw [hdecode]
  simp [parsePushEvent, getStrField, List.lookup, GitHubPushEvent.branch, hbranch]
  rw [if_pos (by decide)]
  dsimp only
  rw [if_pos (by decide)]


/-- Witness for C4 (amended) at a concrete project and body. -/
theorem webhook_full_body_enqueues_witness :
    handle_webhook (fun _ _ => List.replicate 32 0)
      (fun _ => some (Json.obj
        [("ref", Json.str "refs/heads/main"), ("after", Json.str "abc123"),
         ("repository", Json.obj [("full_name", Json.str "acme/app"),
            ("clone_url", Json.str "https://example.com/acme/app.git"),
            ("ssh_url", Json.str "git@example.com:acme/app.git")]),
         ("pusher", Json.obj [("name", Json.str "alice")])]))
      [("app", sampleConfig)] "app"
      (some (sha256Eq ++ hexEncode (List.replicate 32 0))) [] =
      ⟨200, some (.Rebuild "app" (some "abc123"))⟩ :=
  webhook_full_body_enqueues (fun _ _ => List.replicate 32 0) _ _ "app"
    sampleConfig [] "abc123" "acme/app" "https://example.com/acme/app.git"
    "git@example.com:acme/app.git" "alice" rfl rfl (by decide) rfl

/-! ## C1 — per-slug mutual exclusion in the scheduler -/


theorem length_filter_set {α : Type} (p : α → Bool) :
    ∀ (ts : List α) (i : Nat) (a b : α), ts.get? i = some a →
      ((ts.set i b).filter p).length + (if p a then 1 else 0) =
        (ts.filter p).length + (if p b then 1 else 0) := by
  intro ts
  induction ts with
  | nil => intro i a b h; simp at h
  | cons hd tl ih =>
    intro i a b h
    cases i with
    | zero =>
      rw [List.get?_cons_zero] at h
      have ha : hd = a := Option.some_inj.mp h
      subst ha
      simp only [List.set_cons_zero]
      rw [List.filter_cons, List.filter_cons]
      cases hpa : p hd <;> cases hpb : p b <;> simp [hpa, hpb]
    | succ n =>
      rw [List.get?_cons_succ] at h
      have hrec := ih n a b h
      simp only [List.set_cons_succ]
      rw [List.filter_cons, List.filter_cons]
      cases hph : p hd <;> simp [hph] <;> omega

theorem runningCount_set (ts : List TaskPhase) (i : Nat) (a b : TaskPhase)
    (slug : String) (h : ts.get? i = some a) :
    runningCount (ts.set i b) slug + (if a = .running slug then 1 else 0) =
      runningCount ts slug + (if b = .running slug then 1 else 0) := by
  have hr := length_filter_set (fun t => decide (t = TaskPhase.running slug)) ts i a b h
  unfold runningCount
  simpa using hr

theorem runningCount_append_pending (ts : List TaskPhase) (job : Job)
    (slug : String) :
    runningCount (ts ++ [.pending job]) slug = runningCount ts slug := by
  unfold runningCount
  rw [List.filter_append]
  simp

theorem schedInv_init : SchedInv initSched := by
  intro slug
  exact ⟨by simp [runningCount, initSched], fun _ => rfl⟩

theorem schedStep_preserves_inv {s s' : SchedState}
    (hstep : SchedStep s s') (hinv : SchedInv s) : SchedInv s' := by
  cases hstep with
  | recv job =>
    intro slug
    dsimp only
    simp only [runningCount_append_pending]
    exact hinv slug
  | skipBusy i job slug0 h1 h2 h3 =>
    intro slug
    dsimp only
    have hset := runningCount_set s.tasks i (.pending job) .done slug h1
    simp at hset
    rw [hset]
    exact hinv slug
  | bypass i job h1 h2 =>
    intro slug
    dsimp only
    have hset := runningCount_set s.tasks i (.pending job) .done slug h1
    simp at hset
    rw [hset]
    exact hinv slug
  | acquire i job slug0 h1 h2 h3 =>
    intro slug
    dsimp only
    have hset := runningCount_set s.tasks i (.pending job) (.running slug0) slug h1
    simp at hset
    obtain ⟨hle, hz⟩ := hinv slug
    by_cases hsl : slug = slug0
    · subst hsl
      have hc0 : runningCount s.tasks slug = 0 := hz h3
      rw [if_pos rfl] at hset
      constructor
      · omega
      · intro h'
        exact absurd (List.mem_cons_self slug s.building) h'
    · rw [if_neg (fun hh => hsl hh.symm)] at hset
      constructor
      · omega
      · intro h'
        have : slug ∉ s.building := fun hm => h' (List.mem_cons_of_mem _ hm)
        have := hz this
        omega
  | finish i slug0 h1 =>
    intro slug
    dsimp only
    have hset := runningCount_set s.tasks i (.running slug0) .done slug h1
    simp at hset
    obtain ⟨hle, hz⟩ := hinv slug
    by_cases hsl : slug = slug0
    · subst hsl
      rw [if_pos rfl] at hset
      constructor
      · omega
      · intro h'
        omega
    · rw [if_neg (fun hh => hsl hh.symm)] at hset
      constructor
      · omega
      · intro h'
        have : slug ∉ s.building :=
          fun hm => h' ((List.mem_erase_of_ne hsl).mpr hm)
        have := hz this
        omega


/-- C1: in every reachable scheduler state, at most one task is
executing Deploy or Rebuild for any slug.  The step relation embeds the
rest of the claim: a task whose slug is already in the build-exclusion
set takes the `skipBusy` step straight to `done` without acting, and the
`finish` step — taken whether the build succeeded or failed — erases the
slug from the set. -/
theorem scheduler_per_slug_mutual_exclusion (s : SchedState)
    (h : SchedReachable s) (slug : String) :
    runningCount s.tasks slug ≤ 1 := by
  have hinv : SchedInv s := by
    unfold SchedReachable at h
    induction h with
    | refl => exact schedInv_init
    | tail hsteps hstep ih => exact schedStep_preserves_inv hstep ih
  exact (hinv slug).1

/-- Witness for C1: a concrete reachable state in which a Deploy for
`app` is running and an overlapping Rebuild for `app` was dropped. -/
theorem scheduler_per_slug_mutual_exclusion_witness :
    SchedReachable ⟨["app"], [.running "app", .done]⟩ ∧
    runningCount [TaskPhase.running "app", .done] "app" ≤ 1 := by
  have h1 : SchedStep initSched ⟨[], [.pending (.Deploy "app")]⟩ :=
    SchedStep.recv initSched (.Deploy "app")
  have h2 : SchedStep ⟨[], [.pending (.Deploy "app")]⟩
      ⟨["app"], [.running "app"]⟩ :=
    SchedStep.acquire _ 0 (.Deploy "app") "app" rfl rfl (by simp)
  have h3 : SchedStep ⟨["app"], [.running "app"]⟩
      ⟨["app"], [.running "app", .pending (.Rebuild "app" none)]⟩ :=
    SchedStep.recv _ (.Rebuild "app" none)
  have h4 : SchedStep ⟨["app"], [.running "app", .pending (.Rebuild "app" none)]⟩
      ⟨["app"], [.running "app", .done]⟩ :=
    SchedStep.skipBusy _ 1 (.Rebuild "app" none) "app" rfl rfl (by simp)
  have hreach : SchedReachable ⟨["app"], [.running "app", .done]⟩ :=
    Relation.ReflTransGen.tail
      (Relation.ReflTransGen.tail
        (Relation.ReflTransGen.tail
          (Relation.ReflTransGen.tail Relation.ReflTransGen.refl h1) h2) h3) h4
  exact ⟨hreach, scheduler_per_slug_mutual_exclusion _ hreach "app"⟩


end Dockyard
